import Mathlib

/-!
# calcal: the command-line front end of the calendar converter

A shallow embedding of `calcal.go` (package `main`): the identifier tables
`calendars` and `calendarNames`, the helpers `documentCalendars`, `member`,
`unique` and `parseDate`, and the calendar selection performed by `main`.

Go strings are byte sequences, so a string is a list of byte values.  The
functions of the Go standard library that the program calls (`time.Parse` with
the layout `2006-01-02`, `strings.Split`, the `%-12s` verb of `fmt.Sprintf`)
are transcribed next to their callers.
-/

namespace Calcal

/-! ## Strings and maps -/

/-- A Go `string`: an immutable sequence of bytes (each value below 256). -/
abbrev GoString := List Nat

/-- The UTF-8 encoding of one code point. -/
def utf8Bytes (c : Nat) : List Nat :=
  if c < 0x80 then [c]
  else if c < 0x800 then [0xC0 + c / 64, 0x80 + c % 64]
  else if c < 0x10000 then [0xE0 + c / 4096, 0x80 + c / 64 % 64, 0x80 + c % 64]
  else [0xF0 + c / 262144, 0x80 + c / 4096 % 64, 0x80 + c / 64 % 64, 0x80 + c % 64]

/-- The bytes of a string literal of the source (Go source text is UTF-8). -/
def bytes (s : String) : GoString :=
  (s.toList.map (fun c => utf8Bytes c.toNat)).flatten

/-- A Go `map[string]V`, kept as a list of key and value pairs with distinct
keys; a map literal lists its entries. -/
abbrev GoMap (V : Type) := List (GoString × V)

/-- The two-result index expression `v, ok := m[k]`. -/
def GoMap.get? {V : Type} (m : GoMap V) (k : GoString) : Option V :=
  List.lookup k m

/-- The assignment `m[k] = v`. -/
def GoMap.set {V : Type} (m : GoMap V) (k : GoString) (v : V) : GoMap V :=
  (k, v) :: m.filter (fun kv => kv.1 ≠ k)

/-- The index expression `m[k]` on a `map[string]string`: the zero value `""`
when the key is absent. -/
def GoMap.index (m : GoMap GoString) (k : GoString) : GoString :=
  (m.get? k).getD []

/-! ## The identifier tables -/

/-- Target calendars names (internal). -/
def calendars : List GoString :=
  [ bytes "gregorian",
    bytes "iso",
    bytes "julian",
    bytes "islamic",
    bytes "hebrew",
    bytes "mayanLongCount",
    bytes "mayanHaab",
    bytes "mayanTzolkin",
    bytes "french",
    bytes "oldHinduSolar",
    bytes "oldHinduLunar" ]

/-- Map of internal calendar to external (print-related) calendar names. -/
def calendarNames : GoMap GoString :=
  [ (bytes "gregorian", bytes "Gregorian"),
    (bytes "iso", bytes "ISO"),
    (bytes "julian", bytes "Julian"),
    (bytes "islamic", bytes "Islamic"),
    (bytes "hebrew", bytes "Hebrew"),
    (bytes "mayanLongCount", bytes "Mayan Long Count"),
    (bytes "mayanHaab", bytes "Mayan Haab"),
    (bytes "mayanTzolkin", bytes "Mayan Tzolkin"),
    (bytes "french", bytes "French Revolutionary"),
    (bytes "oldHinduSolar", bytes "Old Hindu Solar"),
    (bytes "oldHinduLunar", bytes "Old Hindu Lunar") ]

/-- The key set of a map, in the order of the literal. -/
def GoMap.keys {V : Type} (m : GoMap V) : List GoString :=
  m.map Prod.fst

/-! ## member and unique -/

/-- Go `member`: true if a string is contained in a given slice, and false
otherwise. -/
def member (e : GoString) : List GoString → Bool
  | [] => false
  | v :: s => if v = e then true else member e s

/-- The `for _, v := range s` loop of `unique`, on the state
`(helperMap, uniqueStrings)`. -/
def uniqueLoop : List GoString → GoMap Bool → List GoString → List GoString
  | [], _, uniqueStrings => uniqueStrings
  | v :: rest, helperMap, uniqueStrings =>
    match helperMap.get? v with
    | none => uniqueLoop rest (helperMap.set v true) (uniqueStrings ++ [v])
    | some _ => uniqueLoop rest helperMap uniqueStrings

/-- Go `unique`: the slice of unique strings contained in a given slice. -/
def unique (s : List GoString) : List GoString :=
  uniqueLoop s [] []

/-! ## Package time: Parse with the layout 2006-01-02

`parseDate` calls `time.Parse("2006-01-02", s)`.  The layout splits into the
chunks `2006` (stdLongYear), `-`, `01` (stdZeroMonth), `-`, `02` (stdZeroDay);
`Parse` below is the body of the library's parse loop run over these chunks,
with the library's helpers `isDigit`, `leadingInt`, `atoi`, `getnum`,
`cutspace`, `skip`, `isLeap` and `daysIn`.  The fields it returns are the
ones that `Time.Year`, `Time.Month` and `Time.Day` read back from the parsed
time, which is built from the validated fields in UTC. -/

namespace time

/-- Go `isDigit`: reports whether `s[i]` is in range and is a decimal digit. -/
def isDigit (s : GoString) (i : Nat) : Bool :=
  match s.get? i with
  | none => false
  | some c => decide (48 ≤ c) && decide (c ≤ 57)

/-- The loop of `leadingInt`: consumes leading digits into `x`, failing on
overflow of the unsigned 64-bit accumulator's signed range. -/
def leadingIntLoop : GoString → Nat → Option (Nat × GoString)
  | [], x => some (x, [])
  | c :: rest, x =>
    if c < 48 ∨ c > 57 then some (x, c :: rest)
    else if x > 2 ^ 63 / 10 then none
    else if x * 10 + c - 48 > 2 ^ 63 then none
    else leadingIntLoop rest (x * 10 + c - 48)

/-- Go `leadingInt`: the leading decimal integer of `s` and the remainder. -/
def leadingInt (s : GoString) : Option (Nat × GoString) :=
  leadingIntLoop s 0

/-- Go `atoi`: an optionally signed decimal integer filling the whole string. -/
def atoi (s : GoString) : Option Int :=
  let neg : Bool := decide (0 < s.length) && (decide (s.head? = some 45))
  let signed : Bool := decide (0 < s.length) &&
    (decide (s.head? = some 45) || decide (s.head? = some 43))
  let s := if signed then s.drop 1 else s
  match leadingInt s with
  | none => none
  | some (q, rem) =>
    if 0 < rem.length then none
    else if neg then some (-(q : Int)) else some (q : Int)

/-- Go `getnum`: a one- or two-digit number at the start of `s`; with `fixed`
it must have two digits. -/
def getnum (s : GoString) (fixed : Bool) : Option (Int × GoString) :=
  if ¬ isDigit s 0 then none
  else if ¬ isDigit s 1 then
    if fixed then none
    else some (((s.getD 0 0 - 48 : Nat) : Int), s.drop 1)
  else some (((s.getD 0 0 - 48 : Nat) : Int) * 10 + ((s.getD 1 0 - 48 : Nat) : Int), s.drop 2)

/-- Go `cutspace`: drops the leading spaces. -/
def cutspace : GoString → GoString
  | [] => []
  | c :: rest => if c = 32 then cutspace rest else c :: rest

/-- Go `skip`: removes `pfx` from the front of `value`, a space of the prefix
standing for any run of spaces; the fuel bounds the iterations of its loop,
each of which shortens the prefix. -/
def skipLoop : Nat → GoString → GoString → Option GoString
  | 0, value, _ => some value
  | fuel + 1, value, pfx =>
    match pfx with
    | [] => some value
    | p :: prest =>
      if p = 32 then
        if 0 < value.length ∧ value.head? ≠ some 32 then none
        else skipLoop fuel (cutspace value) (cutspace (p :: prest))
      else
        match value with
        | [] => none
        | v :: vrest => if v ≠ p then none else skipLoop fuel vrest prest

/-- Go `skip`, with fuel for the whole prefix. -/
def skip (value pfx : GoString) : Option GoString :=
  skipLoop (pfx.length + 1) value pfx

/-- Go `isLeap`: reports whether the year is a leap year. -/
def isLeap (year : Int) : Bool :=
  decide (year.tmod 4 = 0) && (decide (year.tmod 100 ≠ 0) || decide (year.tmod 400 = 0))

/-- Go `daysBefore`: the days of a non-leap year before the end of month `m`. -/
def daysBefore : List Int :=
  [0, 31, 31 + 28, 31 + 28 + 31, 31 + 28 + 31 + 30, 31 + 28 + 31 + 30 + 31,
   31 + 28 + 31 + 30 + 31 + 30, 31 + 28 + 31 + 30 + 31 + 30 + 31,
   31 + 28 + 31 + 30 + 31 + 30 + 31 + 31, 31 + 28 + 31 + 30 + 31 + 30 + 31 + 31 + 30,
   31 + 28 + 31 + 30 + 31 + 30 + 31 + 31 + 30 + 31,
   31 + 28 + 31 + 30 + 31 + 30 + 31 + 31 + 30 + 31 + 30,
   31 + 28 + 31 + 30 + 31 + 30 + 31 + 31 + 30 + 31 + 30 + 31]

/-- Go `daysIn`: the number of days of month `m` (1..12) of the year. -/
def daysIn (m : Int) (year : Int) : Int :=
  if m = 2 ∧ isLeap year then 29
  else daysBefore.getD m.toNat 0 - daysBefore.getD (m.toNat - 1) 0

/-- Go `time.Parse("2006-01-02", value)`: the year, month and day of the
parsed time, or `none` for a parse error. -/
def Parse (value : GoString) : Option (Int × Int × Int) :=
  -- chunk `2006`: empty prefix, stdLongYear
  match skip value [] with
  | none => none
  | some value =>
  if value.length < 4 ∨ ¬ isDigit value 0 then none else
  match atoi (value.take 4) with
  | none => none
  | some year =>
  -- chunk `01`: prefix `-`, stdZeroMonth
  match skip (value.drop 4) [45] with
  | none => none
  | some value =>
  match getnum value true with
  | none => none
  | some (month, value) =>
  if month ≤ 0 ∨ 12 < month then none else
  -- chunk `02`: prefix `-`, stdZeroDay
  match skip value [45] with
  | none => none
  | some value =>
  match getnum value true with
  | none => none
  | some (day, value) =>
  -- end of the layout: empty prefix, no extra text allowed
  match skip value [] with
  | none => none
  | some value =>
  if value.length ≠ 0 then none else
  -- validate the day of the month
  if day < 1 ∨ day > daysIn month year then none else
  some (year, month, day)

end time

/-! ## parseDate -/

/-- The libcalendar type `GregorianDate` (fields `Year`, `Month`, `Day` of
type float64).  `parseDate` stores only integers of absolute value at most
9999 in them, which float64 represents exactly, so the fields are integers
here; the product `0 * -1.0`, a negative zero, is the integer 0, to which it
compares equal. -/
structure GregorianDate where
  Year : Int
  Month : Int
  Day : Int
  deriving DecidableEq, Repr

/-- The zero value of `GregorianDate`, as `var date lc.GregorianDate` gives. -/
def GregorianDate.zero : GregorianDate := ⟨0, 0, 0⟩

/-- Go `parseDate`: parses a date string as a Gregorian date; the second
component is the error value (`none` for nil). -/
def parseDate (s : GoString) : GregorianDate × Option GoString :=
  -- deal with years before the common era (BCE)
  let stripped : Bool := decide (s.length > 0) && decide (s.head? = some 45)
  let commonEra : Int := if stripped then -1 else 1
  let s := if stripped then s.drop 1 else s
  -- parse the rest of the date string
  match time.Parse s with
  | none => (GregorianDate.zero, some (bytes "invalid date string"))
  | some (year, month, day) =>
    (⟨year * commonEra, month, day⟩, none)

/-! ## Package fmt: the verbs of documentCalendars

`documentCalendars` formats each line with
`fmt.Sprintf("%-12s\t%s %s\n", v, names[v], "calendar")`.  The verb `%-12s`
pads its operand on the right with spaces up to twelve runes, counted by
`utf8.RuneCountInString`; the verb `%s` writes its operand unchanged. -/

namespace utf8

/-- Go `first`: information about the first byte of a UTF-8 sequence (`0xF0`
for ASCII, `0xF1` for an invalid first byte, else accept-range index and
size). -/
def first (c : Nat) : Nat :=
  if c < 0x80 then 0xF0
  else if c < 0xC2 then 0xF1
  else if c < 0xE0 then 0x02
  else if c = 0xE0 then 0x13
  else if c < 0xED then 0x03
  else if c = 0xED then 0x23
  else if c < 0xF0 then 0x03
  else if c = 0xF0 then 0x34
  else if c < 0xF4 then 0x04
  else if c = 0xF4 then 0x44
  else 0xF1

/-- Go `acceptRanges`: the range of valid second bytes, by index. -/
def acceptRanges (i : Nat) : Nat × Nat :=
  match i with
  | 0 => (0x80, 0xBF)
  | 1 => (0xA0, 0xBF)
  | 2 => (0x80, 0x9F)
  | 3 => (0x90, 0xBF)
  | 4 => (0x80, 0x8F)
  | _ => (0, 0)

/-- One iteration of the loop of `RuneCountInString` at a position holding the
byte `c` followed by `rest`: the number of bytes the position index advances. -/
def runeStep (c : Nat) (rest : GoString) : Nat :=
  if c < 0x80 then 1
  else
    let x := first c
    if x = 0xF1 then 1
    else
      let size := x % 8
      if 1 + rest.length < size then 1
      else
        let accept := acceptRanges (x / 16)
        if rest.getD 0 0 < accept.1 ∨ accept.2 < rest.getD 0 0 then 1
        else if size = 2 then 2
        else if rest.getD 1 0 < 0x80 ∨ 0xBF < rest.getD 1 0 then 1
        else if size = 3 then 3
        else if rest.getD 2 0 < 0x80 ∨ 0xBF < rest.getD 2 0 then 1
        else size

/-- The loop of `RuneCountInString`: `pending` is the number of bytes still to
pass before the position index of the loop is reached, `n` the count so far. -/
def runeCountLoop : GoString → Nat → Nat → Nat
  | [], _, n => n
  | c :: rest, 0, n => runeCountLoop rest (runeStep c rest - 1) (n + 1)
  | _ :: rest, pending + 1, n => runeCountLoop rest pending n

/-- Go `utf8.RuneCountInString`: the number of runes in `s`, an invalid byte
counting as one rune. -/
def RuneCountInString (s : GoString) : Nat :=
  runeCountLoop s 0 0

end utf8

namespace fmt

/-- Go `writePadding` with the space as padding byte: `n` spaces, nothing when
`n ≤ 0`. -/
def writePadding (n : Int) : GoString :=
  if n ≤ 0 then [] else List.replicate n.toNat 32

/-- Go `padString` for the verb `%-12s` (width 12, flag minus): the operand,
then the padding. -/
def padString (wid : Int) (s : GoString) : GoString :=
  s ++ writePadding (wid - (utf8.RuneCountInString s : Int))

/-- Go `fmt.Sprintf("%-12s\t%s %s\n", a, b, c)`. -/
def SprintfLine (a b c : GoString) : GoString :=
  padString 12 a ++ [9] ++ b ++ [32] ++ c ++ [10]

end fmt

/-! ## documentCalendars -/

/-- The slice expression `s[low:high]` on a string: `none` is the run-time
panic for bounds outside `0 ≤ low ≤ high ≤ len(s)`. -/
def sliceExpr (s : GoString) (low high : Int) : Option GoString :=
  if 0 ≤ low ∧ low ≤ high ∧ high ≤ (s.length : Int) then
    some ((s.take high.toNat).drop low.toNat)
  else none

/-- The `for _, v := range calendars` loop of `documentCalendars`, on the
accumulated string `s`. -/
def documentCalendarsLoop (names : GoMap GoString) : List GoString → GoString → GoString
  | [], s => s
  | v :: rest, s =>
    documentCalendarsLoop names rest
      (s ++ fmt.SprintfLine v (names.index v) (bytes "calendar"))

/-- Go `documentCalendars`: pretty prints the information of the map
`calendarNames` to a string; `none` is a run-time panic. -/
def documentCalendars (names : GoMap GoString) (calendars : List GoString) :
    Option GoString :=
  let s := documentCalendarsLoop names calendars []
  sliceExpr s 0 ((s.length : Int) - 1)

/-! ## Package strings: Split with a one-byte separator -/

namespace strings

/-- Go `strings.Index(s, sep)` for a separator of one byte: the index of its
first occurrence, `none` standing for the result -1. -/
def Index : GoString → Nat → Option Nat
  | [], _ => none
  | c :: rest, sep =>
    if c = sep then some 0
    else match Index rest sep with
      | none => none
      | some i => some (i + 1)

/-- Go `strings.Count(s, sep)` for a separator of one byte. -/
def Count : GoString → Nat → Nat
  | [], _ => 0
  | c :: rest, sep => (if c = sep then 1 else 0) + Count rest sep

/-- The loop `for i < n` of `genSplit`: `k` is `n - i`, `a` the entries
`a[0:i]` filled so far; after the loop `a[i] = s` and `a[:i+1]` is returned. -/
def genSplitLoop : Nat → GoString → Nat → List GoString → List GoString
  | 0, s, _, a => a ++ [s]
  | k + 1, s, sep, a =>
    match Index s sep with
    | none => a ++ [s]
    | some m => genSplitLoop k (s.drop (m + 1)) sep (a ++ [s.take m])

/-- Go `strings.Split(s, sep)` for a separator `sep` of one byte, that is
`genSplit(s, sep, 0, -1)`: `n` becomes `Count(s, sep) + 1`, capped by
`len(s) + 1`, and the loop runs while `i < n - 1`. -/
def Split (s : GoString) (sep : Nat) : List GoString :=
  let n := Count s sep + 1
  let n := if n > s.length + 1 then s.length + 1 else n
  genSplitLoop (n - 1) s sep []

end strings

/-! ## main -/

/-- How a run of `main` ends: a run-time panic, `os.Exit` with a code, or a
normal return, then with the identifiers passed to `lc.FromAbsolute`, in the
order of the calls. -/
inductive Outcome where
  | panicked : Outcome
  | exited (code : Nat) : Outcome
  | returned (dispatched : List GoString) : Outcome
  deriving DecidableEq, Repr

/-- The variable `inputList` of `main` after the check of the `-c` argument. -/
def inputList (list : GoString) : List GoString :=
  if list.length > 0 then unique (strings.Split list 44)
  else [] ++ [bytes "all"]

/-- The loop of `main` that keeps valid calendar names, on the slice
`requiredCalendars` built so far. -/
def requiredCalendarsLoop : List GoString → List GoString → List GoString
  | [], requiredCalendars => requiredCalendars
  | v :: rest, requiredCalendars =>
    if member v calendars then requiredCalendarsLoop rest (requiredCalendars ++ [v])
    else requiredCalendarsLoop rest requiredCalendars

/-- The identifiers that the final `if` of `main` passes to `lc.FromAbsolute`:
every entry of `calendars` when `inputList` has the entry `all`, the entries of
`requiredCalendars` otherwise. -/
def dispatch (inputList requiredCalendars : List GoString) : List GoString :=
  if member (bytes "all") inputList then calendars else requiredCalendars

/-- Go `main`, for the values `date_s` and `list` of the flags `-d` and `-c`
after `flag.Parse`, and `today`, the text `time.Now().Format("2006-01-02")`.
Printed text is left out; the result records the calls of `lc.FromAbsolute`. -/
def main (date_s list today : GoString) : Outcome :=
  -- the usage text of the flag `-c`
  match documentCalendars calendarNames calendars with
  | none => Outcome.panicked
  | some _ =>
    let inputList := inputList list
    let date := if date_s ≠ [] then date_s else today
    -- ensure that Gregorian date is valid
    match (parseDate date).2 with
    | some _ => Outcome.exited 1
    | none =>
      -- keep valid (non-duplicated) calendar names
      let requiredCalendars := requiredCalendarsLoop inputList []
      -- compute and return dates
      Outcome.returned (dispatch inputList requiredCalendars)

/-! ## The vocabulary of the specification

Definitions that follow the words of the specification, against which the
functions above are compared. -/

/-- A decimal digit, as a byte. -/
def isDecimalDigit (c : Nat) : Bool :=
  decide (48 ≤ c) && decide (c ≤ 57)

/-- The value of a decimal digit. -/
def digitValue (c : Nat) : Int :=
  ((c - 48 : Nat) : Int)

/-- Whether the text starts with the sign `-`. -/
def hasSign : GoString → Bool
  | c :: _ => decide (c = 45)
  | [] => false

/-- The text left after removing one optional leading `-`. -/
def removeSign (s : GoString) : GoString :=
  if hasSign s then s.drop 1 else s

/-- The textual form `YYYY-MM-DD`: exactly four decimal digits, `-`, two
decimal digits, `-`, two decimal digits. -/
def hasDateForm : GoString → Bool
  | [y1, y2, y3, y4, h1, m1, m2, h2, d1, d2] =>
    isDecimalDigit y1 && isDecimalDigit y2 && isDecimalDigit y3 && isDecimalDigit y4 &&
    decide (h1 = 45) && isDecimalDigit m1 && isDecimalDigit m2 &&
    decide (h2 = 45) && isDecimalDigit d1 && isDecimalDigit d2
  | _ => false

/-- The number written by the four year digits of a text of the date form. -/
def yearOf (t : GoString) : Int :=
  1000 * digitValue (t.getD 0 0) + 100 * digitValue (t.getD 1 0) +
    10 * digitValue (t.getD 2 0) + digitValue (t.getD 3 0)

/-- The number written by the two month digits of a text of the date form. -/
def monthOf (t : GoString) : Int :=
  10 * digitValue (t.getD 5 0) + digitValue (t.getD 6 0)

/-- The number written by the two day digits of a text of the date form. -/
def dayOf (t : GoString) : Int :=
  10 * digitValue (t.getD 8 0) + digitValue (t.getD 9 0)

/-- The Gregorian leap rule: divisible by 4, and not by 100 unless by 400. -/
def leapYear (y : Int) : Bool :=
  decide (y % 4 = 0) && (decide (y % 100 ≠ 0) || decide (y % 400 = 0))

/-- The length of month `m` of year `y`: February has 29 days in a leap year
and 28 otherwise. -/
def daysInMonth (y m : Int) : Int :=
  if m = 2 then (if leapYear y then 29 else 28)
  else if m = 4 ∨ m = 6 ∨ m = 9 ∨ m = 11 then 30
  else 31

/-- A valid `yyyy-mm-dd` date: a text of the date form whose month is in
1..12 and whose day is in 1..daysInMonth. -/
def isValidDate (t : GoString) : Bool :=
  hasDateForm t && decide (1 ≤ monthOf t) && decide (monthOf t ≤ 12) &&
    decide (1 ≤ dayOf t) && decide (dayOf t ≤ daysInMonth (yearOf t) (monthOf t))

/-- The text `YYYY-01-01` of a year from 0 to 9999, with the sign in front
when asked for. -/
def newYearText (negative : Bool) (y : Nat) : GoString :=
  (if negative then [45] else []) ++
    [48 + y / 1000, 48 + y / 100 % 10, 48 + y / 10 % 10, 48 + y % 10,
     45, 48, 49, 45, 48, 49]

/-- The entries of a list at the positions of first occurrence: an entry is
kept when it does not occur earlier in the list. -/
def firstOccurrences (s : List GoString) : List GoString :=
  (List.range s.length).filterMap
    (fun i => if s.getD i [] ∈ s.take i then none else some (s.getD i []))

/-- A text left-justified to a width: padded on the right with spaces up to
that number of runes, and unchanged when it is as long or longer. -/
def leftJustify (width : Nat) (s : GoString) : GoString :=
  s ++ List.replicate (width - utf8.RuneCountInString s) 32

/-- The display name of an identifier in a names map, empty when the map has
no such key. -/
def displayName (names : GoMap GoString) (v : GoString) : GoString :=
  match names.get? v with
  | some name => name
  | none => []

/-- One line of the calendar documentation: the identifier left-justified to
width 12, a tab, the display name, a space and the word `calendar`. -/
def calendarLine (names : GoMap GoString) (v : GoString) : GoString :=
  leftJustify 12 v ++ [9] ++ displayName names v ++ [32] ++ bytes "calendar"

/-! ## Lemmas on the date parser -/

open time

theorem skip_nil (value : GoString) : skip value [] = some value := by
  simp [skip, skipLoop]

theorem skip_dash_cons (c : Nat) (rest : GoString) :
    skip (c :: rest) [45] = if c = 45 then some rest else none := by
  simp [skip, skipLoop]

theorem skip_dash_nil : skip [] [45] = none := by
  simp [skip, skipLoop]

theorem getnum_two (a b : Nat) (rest : GoString) :
    getnum (a :: b :: rest) true =
      if isDecimalDigit a ∧ isDecimalDigit b then
        some (10 * digitValue a + digitValue b, rest) else none := by
  simp [getnum, isDigit, isDecimalDigit, digitValue]
  split_ifs <;> simp_all <;> omega

theorem getnum_short (s : GoString) (h : s.length < 2) : getnum s true = none := by
  rcases s with _ | ⟨a, _ | ⟨b, r⟩⟩
  · simp [getnum, isDigit]
  · simp [getnum, isDigit]
  · simp at h; omega

theorem leadingIntLoop_digit (c x : Nat) (rest : GoString) (hc : 48 ≤ c ∧ c ≤ 57)
    (hx : x ≤ 1000000) :
    leadingIntLoop (c :: rest) x = leadingIntLoop rest (x * 10 + (c - 48)) := by
  have h1 : ¬ (c < 48 ∨ c > 57) := by omega
  have h2 : ¬ (x > 2 ^ 63 / 10) := by norm_num; omega
  have h3 : ¬ (x * 10 + c - 48 > 2 ^ 63) := by norm_num; omega
  have h4 : x * 10 + c - 48 = x * 10 + (c - 48) := by omega
  rw [leadingIntLoop, if_neg h1, if_neg h2, if_neg h3, h4]

theorem leadingIntLoop_other (c x : Nat) (rest : GoString) (hc : ¬ (48 ≤ c ∧ c ≤ 57)) :
    leadingIntLoop (c :: rest) x = some (x, c :: rest) := by
  have h1 : c < 48 ∨ c > 57 := by omega
  rw [leadingIntLoop, if_pos h1]

theorem atoi_four (a b c d : Nat) (ha : isDecimalDigit a) :
    atoi [a, b, c, d] =
      if isDecimalDigit b ∧ isDecimalDigit c ∧ isDecimalDigit d then
        some (1000 * digitValue a + 100 * digitValue b + 10 * digitValue c + digitValue d)
      else none := by
  simp only [isDecimalDigit, Bool.and_eq_true, decide_eq_true_eq] at ha
  have h45 : a ≠ 45 := by omega
  have h43 : a ≠ 43 := by omega
  simp only [atoi, leadingInt, isDecimalDigit, digitValue, List.head?, List.length]
  simp only [Option.some.injEq, h45, h43, decide_False, Bool.or_false, Bool.and_false,
    Bool.false_eq_true, if_false, Bool.and_eq_true, decide_eq_true_eq]
  rw [leadingIntLoop_digit a 0 _ ha (by omega)]
  by_cases hb : 48 ≤ b ∧ b ≤ 57
  · rw [leadingIntLoop_digit b _ _ hb (by omega)]
    by_cases hc : 48 ≤ c ∧ c ≤ 57
    · rw [leadingIntLoop_digit c _ _ hc (by omega)]
      by_cases hd : 48 ≤ d ∧ d ≤ 57
      · rw [leadingIntLoop_digit d _ _ hd (by omega)]
        simp [leadingIntLoop, hb, hc, hd]
        omega
      · rw [leadingIntLoop_other d _ _ hd]
        simp [hd]
    · rw [leadingIntLoop_other c _ _ hc]
      simp [hc]
  · rw [leadingIntLoop_other b _ _ hb]
    simp [hb]

theorem isLeap_eq_leapYear (y : Int) : isLeap y = leapYear y := by
  simp only [isLeap, leapYear, ← Int.dvd_iff_tmod_eq_zero, ← Int.dvd_iff_emod_eq_zero, ne_eq]

theorem leapYear_neg (y : Int) : leapYear (-y) = leapYear y := by
  simp only [leapYear, ← Int.dvd_iff_emod_eq_zero, ne_eq, Int.dvd_neg]

theorem daysIn_eq_daysInMonth (m y : Int) (h1 : 1 ≤ m) (h12 : m ≤ 12) :
    daysIn m y = daysInMonth y m := by
  unfold daysIn daysInMonth
  rw [isLeap_eq_leapYear]
  interval_cases m <;> simp [daysBefore]

theorem daysInMonth_neg (y m : Int) : daysInMonth (-y) m = daysInMonth y m := by
  simp only [daysInMonth, leapYear_neg]

theorem Parse_ten (y1 y2 y3 y4 h1 m1 m2 h2 d1 d2 : Nat) :
    Parse [y1, y2, y3, y4, h1, m1, m2, h2, d1, d2] =
      if isValidDate [y1, y2, y3, y4, h1, m1, m2, h2, d1, d2] then
        some (yearOf [y1, y2, y3, y4, h1, m1, m2, h2, d1, d2],
          monthOf [y1, y2, y3, y4, h1, m1, m2, h2, d1, d2],
          dayOf [y1, y2, y3, y4, h1, m1, m2, h2, d1, d2])
      else none := by
  have hlen : ¬ ([y1, y2, y3, y4, h1, m1, m2, h2, d1, d2].length < 4) := by simp
  simp only [Parse, skip_nil, List.take, List.drop, isValidDate, hasDateForm, yearOf, monthOf,
    dayOf, List.getD_cons_zero, List.getD_cons_succ, Bool.and_eq_true, decide_eq_true_eq]
  by_cases hy1 : isDecimalDigit y1 = true
  · have hd0 : isDigit [y1, y2, y3, y4, h1, m1, m2, h2, d1, d2] 0 = true := by
      simpa [isDigit, isDecimalDigit] using hy1
    simp only [hlen, hd0, atoi_four y1 y2 y3 y4 hy1, skip_dash_cons, getnum_two]
    simp only [false_or, not_true, if_false, hy1, true_and]
    by_cases hy : isDecimalDigit y2 = true ∧ isDecimalDigit y3 = true ∧ isDecimalDigit y4 = true
    swap
    · rw [if_neg hy]; split_ifs <;> first | rfl | (exfalso; tauto)
    rw [if_pos hy]
    obtain ⟨hy2, hy3, hy4⟩ := hy
    simp only [hy2, hy3, hy4, true_and]
    by_cases hh1 : h1 = 45
    swap
    · rw [if_neg hh1]; split_ifs <;> first | rfl | (exfalso; tauto)
    rw [if_pos hh1]
    simp only [getnum_two, hh1, true_and]
    by_cases hm : isDecimalDigit m1 = true ∧ isDecimalDigit m2 = true
    swap
    · rw [if_neg hm]; split_ifs <;> first | rfl | (exfalso; tauto)
    rw [if_pos hm]
    obtain ⟨hm1, hm2⟩ := hm
    simp only [hm1, hm2, true_and]
    by_cases hmr : 1 ≤ 10 * digitValue m1 + digitValue m2 ∧ 10 * digitValue m1 + digitValue m2 ≤ 12
    swap
    · have hmr2 : 10 * digitValue m1 + digitValue m2 ≤ 0 ∨ 12 < 10 * digitValue m1 + digitValue m2 := by
        omega
      simp only [if_pos hmr2]; split_ifs <;> first | rfl | (exfalso; tauto)
    have hmr2 : ¬ (10 * digitValue m1 + digitValue m2 ≤ 0 ∨ 12 < 10 * digitValue m1 + digitValue m2) := by
      omega
    simp only [if_neg hmr2, skip_dash_cons]
    by_cases hh2 : h2 = 45
    swap
    · rw [if_neg hh2]; split_ifs <;> first | rfl | (exfalso; tauto)
    rw [if_pos hh2]
    simp only [getnum_two, hh2, true_and]
    by_cases hd : isDecimalDigit d1 = true ∧ isDecimalDigit d2 = true
    swap
    · rw [if_neg hd]; split_ifs <;> first | rfl | (exfalso; tauto)
    rw [if_pos hd]
    obtain ⟨hd1, hd2⟩ := hd
    simp only [hd1, hd2, hmr.1, hmr.2, true_and, and_true, List.length_nil, ne_eq, not_true,
      if_false]
    rw [daysIn_eq_daysInMonth _ _ hmr.1 hmr.2]
    by_cases hdr : 1 ≤ 10 * digitValue d1 + digitValue d2 ∧ 10 * digitValue d1 + digitValue d2 ≤
        daysInMonth (1000 * digitValue y1 + 100 * digitValue y2 + 10 * digitValue y3 +
          digitValue y4) (10 * digitValue m1 + digitValue m2)
    · rw [if_neg (by omega), if_pos hdr]
    · rw [if_pos (by omega), if_neg hdr]
  · have hd0 : isDigit [y1, y2, y3, y4, h1, m1, m2, h2, d1, d2] 0 = false := by
      simpa [isDigit, isDecimalDigit] using hy1
    simp [hd0, hy1]

theorem skip_dash_some (v w : GoString) (h : skip v [45] = some w) : v = 45 :: w := by
  rcases v with _ | ⟨c, rest⟩
  · simp [skip_dash_nil] at h
  · rw [skip_dash_cons] at h
    split_ifs at h with hc
    simp only [Option.some.injEq] at h
    rw [hc, h]

theorem getnum_some (v w : GoString) (n : Int) (h : getnum v true = some (n, w)) :
    ∃ a b, v = a :: b :: w := by
  rcases v with _ | ⟨a, _ | ⟨b, r⟩⟩
  · simp [getnum_short] at h
  · simp [getnum_short] at h
  · rw [getnum_two] at h
    split_ifs at h
    simp only [Option.some.injEq, Prod.mk.injEq] at h
    exact ⟨a, b, by rw [h.2]⟩

theorem Parse_length (t : GoString) (r : Int × Int × Int) (h : Parse t = some r) :
    t.length = 10 := by
  unfold Parse at h
  simp only [skip_nil] at h
  split_ifs at h with h4
  split at h
  · cases h
  split at h
  · cases h
  rename_i v1 hv1
  split at h
  · cases h
  rename_i month v2 hv2
  split_ifs at h
  split at h
  · cases h
  rename_i v3 hv3
  split at h
  · cases h
  rename_i day v4 hv4
  split_ifs at h with h5
  have e1 := skip_dash_some _ _ hv1
  obtain ⟨a, b, e2⟩ := getnum_some _ _ _ hv2
  have e3 := skip_dash_some _ _ hv3
  obtain ⟨c, d, e4⟩ := getnum_some _ _ _ hv4
  have e5 : v4 = [] := by
    cases v4 with
    | nil => rfl
    | cons x xs => simp at h5
  have hl : (t.drop 4).length = 6 := by
    rw [e1, e2, e3, e4, e5]; rfl
  rw [List.length_drop] at hl
  omega

theorem hasDateForm_length (t : GoString) (h : hasDateForm t = true) : t.length = 10 := by
  unfold hasDateForm at h
  split at h
  · rfl
  · cases h

theorem Parse_eq (t : GoString) :
    Parse t = if isValidDate t then some (yearOf t, monthOf t, dayOf t) else none := by
  by_cases hl : t.length = 10
  · rcases t with _ | ⟨y1, _ | ⟨y2, _ | ⟨y3, _ | ⟨y4, _ | ⟨h1, _ | ⟨m1, _ | ⟨m2, _ | ⟨h2, _ |
      ⟨d1, _ | ⟨d2, _ | ⟨x, r⟩⟩⟩⟩⟩⟩⟩⟩⟩⟩⟩ <;> simp at hl
    exact Parse_ten y1 y2 y3 y4 h1 m1 m2 h2 d1 d2
  · have h1 : Parse t = none := by
      cases hp : Parse t with
      | none => rfl
      | some r => exact absurd (Parse_length t r hp) hl
    have h2 : isValidDate t = false := by
      cases hv : isValidDate t with
      | false => rfl
      | true =>
        simp only [isValidDate, Bool.and_eq_true] at hv
        exact absurd (hasDateForm_length t hv.1.1.1.1) hl
    rw [h1, h2]; rfl

theorem parseDate_eq (s : GoString) :
    parseDate s =
      if isValidDate (removeSign s) then
        ((⟨yearOf (removeSign s) * (if hasSign s then -1 else 1), monthOf (removeSign s),
          dayOf (removeSign s)⟩ : GregorianDate), none)
      else (GregorianDate.zero, some (bytes "invalid date string")) := by
  have hs : (decide (s.length > 0) && decide (s.head? = some 45)) = hasSign s := by
    cases s with
    | nil => rfl
    | cons c r => simp [hasSign]
  simp only [parseDate, hs, removeSign, Parse_eq]
  split_ifs <;> rfl

theorem isValidDate_newYearText (y : Nat) (hy : y ≤ 9999) :
    isValidDate (newYearText false y) = true ∧ yearOf (newYearText false y) = (y : Int) ∧
      monthOf (newYearText false y) = 1 ∧ dayOf (newYearText false y) = 1 := by
  refine ⟨?_, ?_, ?_, ?_⟩
  · simp [isValidDate, newYearText, hasDateForm, isDecimalDigit, monthOf, dayOf, digitValue,
      daysInMonth]
    omega
  · simp [newYearText, yearOf, digitValue]
    omega
  · simp [newYearText, monthOf, digitValue]
  · simp [newYearText, dayOf, digitValue]

/-! ## Claims on parseDate -/

/-- C1: for every string, `parseDate` returns a non-nil error exactly when the
text left after removing one optional leading `-` is not a valid yyyy-mm-dd
date; with an error the returned date is `{0, 0, 0}`; with a nil error it is
the parsed date, the year negated when the sign was removed. -/
theorem parseDate_error_iff_not_valid (s : GoString) :
    ((parseDate s).2 ≠ none ↔ isValidDate (removeSign s) = false) ∧
    ((parseDate s).2 ≠ none → (parseDate s).1 = ⟨0, 0, 0⟩) ∧
    ((parseDate s).2 = none →
      (parseDate s).1 =
        ⟨if hasSign s then -yearOf (removeSign s) else yearOf (removeSign s),
          monthOf (removeSign s), dayOf (removeSign s)⟩) := by
  rw [parseDate_eq]
  by_cases hv : isValidDate (removeSign s) = true
  · simp only [hv, if_true, ne_eq, not_true, false_iff, Bool.true_eq_false, not_false_eq_true,
      false_implies, true_and, forall_true_left]
    by_cases hs : hasSign s = true <;> simp [hs]
  · simp only [hv, if_false, Bool.false_eq_true]
    simp [GregorianDate.zero, Bool.not_eq_true _ ▸ hv]

/-- A rejected text and an accepted text, each under the three parts of C1. -/
theorem parseDate_error_iff_not_valid_witness :
    (parseDate (bytes "2024-02-30")).2 ≠ none ∧
    (parseDate (bytes "2024-02-30")).1 = ⟨0, 0, 0⟩ ∧
    (parseDate (bytes "-2024-02-29")).2 = none ∧
    (parseDate (bytes "-2024-02-29")).1 = ⟨-2024, 2, 29⟩ :=
  ⟨by decide,
   (parseDate_error_iff_not_valid (bytes "2024-02-30")).2.1 (by decide),
   by decide,
   ((parseDate_error_iff_not_valid (bytes "-2024-02-29")).2.2 (by decide)).trans (by decide)⟩

/-- C2: a text that is the valid date `(y, m, d)` parses to `{y, m, d}` with a
nil error, and with a `-` in front to `{-y, m, d}` with a nil error; in
particular `-0001-12-31` gives `{-1, 12, 31}`. -/
theorem parseDate_sign_negates_year (t : GoString) (y m d : Int)
    (hv : isValidDate t = true) (hy : yearOf t = y) (hm : monthOf t = m) (hd : dayOf t = d) :
    parseDate t = (⟨y, m, d⟩, none) ∧
    parseDate (45 :: t) = (⟨-y, m, d⟩, none) ∧
    parseDate (bytes "-0001-12-31") = (⟨-1, 12, 31⟩, none) := by
  have hlen := hasDateForm_length t (by
    simp only [isValidDate, Bool.and_eq_true] at hv; exact hv.1.1.1.1)
  have hns : hasSign t = false := by
    rcases t with _ | ⟨c, r⟩
    · rfl
    · simp only [isValidDate, hasDateForm, Bool.and_eq_true] at hv
      rcases r with _ | ⟨y2, _ | ⟨y3, _ | ⟨y4, _ | ⟨h1, _ | ⟨m1, _ | ⟨m2, _ | ⟨h2, _ |
        ⟨d1, _ | ⟨d2, _ | ⟨x, r⟩⟩⟩⟩⟩⟩⟩⟩⟩⟩ <;> simp at hlen
      simp only [isDecimalDigit, Bool.and_eq_true, decide_eq_true_eq] at hv
      simp only [hasSign, decide_eq_false_iff_not]
      omega
  refine ⟨?_, ?_, by decide⟩
  · rw [parseDate_eq]
    simp [removeSign, hns, hv, hy, hm, hd]
  · rw [parseDate_eq]
    have h1 : hasSign (45 :: t) = true := by simp [hasSign]
    have h2 : removeSign (45 :: t) = t := by simp [removeSign, h1]
    simp [h1, h2, hv, hy, hm, hd]

/-- The text `0001-12-31` is the valid date (1, 12, 31). -/
theorem parseDate_sign_negates_year_witness :
    parseDate (bytes "0001-12-31") = (⟨1, 12, 31⟩, none) ∧
    parseDate (45 :: bytes "0001-12-31") = (⟨-1, 12, 31⟩, none) ∧
    parseDate (bytes "-0001-12-31") = (⟨-1, 12, 31⟩, none) :=
  parseDate_sign_negates_year (bytes "0001-12-31") 1 12 31 (by decide) (by decide) (by decide)
    (by decide)

/-- C3: a date returned without error is structurally valid, its month in
1..12 and its day in 1..daysInMonth of the returned year and month, February
having 29 days exactly in a leap year; `1900-02-29` is rejected, `2000-02-29`
and `2024-02-29` are accepted, with and without the sign. -/
theorem parseDate_structurally_valid :
    (∀ s : GoString, (parseDate s).2 = none →
      1 ≤ (parseDate s).1.Month ∧ (parseDate s).1.Month ≤ 12 ∧
      1 ≤ (parseDate s).1.Day ∧
      (parseDate s).1.Day ≤ daysInMonth (parseDate s).1.Year (parseDate s).1.Month) ∧
    (∀ y : Int, daysInMonth y 2 = if y % 4 = 0 ∧ (y % 100 ≠ 0 ∨ y % 400 = 0) then 29 else 28) ∧
    (parseDate (bytes "1900-02-29")).2 ≠ none ∧
    (parseDate (bytes "-1900-02-29")).2 ≠ none ∧
    parseDate (bytes "2000-02-29") = (⟨2000, 2, 29⟩, none) ∧
    parseDate (bytes "-2000-02-29") = (⟨-2000, 2, 29⟩, none) ∧
    parseDate (bytes "2024-02-29") = (⟨2024, 2, 29⟩, none) ∧
    parseDate (bytes "-2024-02-29") = (⟨-2024, 2, 29⟩, none) := by
  refine ⟨?_, ?_, by decide, by decide, by decide, by decide, by decide, by decide⟩
  · intro s
    rw [parseDate_eq]
    by_cases hv : isValidDate (removeSign s) = true
    · intro _
      have hv2 := hv
      simp only [isValidDate, Bool.and_eq_true, decide_eq_true_eq] at hv2
      obtain ⟨⟨⟨⟨_, h1⟩, h2⟩, h3⟩, h4⟩ := hv2
      simp only [hv, if_true]
      refine ⟨h1, h2, h3, ?_⟩
      by_cases hs : hasSign s = true
      · simp only [hs, if_true, mul_neg, mul_one, daysInMonth_neg]
        exact h4
      · simp only [hs, Bool.false_eq_true, if_false, mul_one]
        exact h4
    · intro h
      simp [hv] at h
  · intro y
    simp only [daysInMonth, leapYear, if_true, Bool.and_eq_true, Bool.or_eq_true,
      decide_eq_true_eq]

/-- The accepted text `2024-02-29` under the general part of C3. -/
theorem parseDate_structurally_valid_witness :
    (parseDate (bytes "2024-02-29")).2 = none ∧
    1 ≤ (parseDate (bytes "2024-02-29")).1.Month ∧
    (parseDate (bytes "2024-02-29")).1.Month ≤ 12 ∧
    1 ≤ (parseDate (bytes "2024-02-29")).1.Day ∧
    (parseDate (bytes "2024-02-29")).1.Day ≤
      daysInMonth (parseDate (bytes "2024-02-29")).1.Year
        (parseDate (bytes "2024-02-29")).1.Month :=
  ⟨by decide, parseDate_structurally_valid.1 (bytes "2024-02-29") (by decide)⟩

/-- C4, as the code has it: `0000-01-01` and `-0000-01-01` both parse without
error, to a date of year 0. -/
theorem parseDate_year_zero_accepted :
    parseDate (bytes "0000-01-01") = (⟨0, 1, 1⟩, none) ∧
    parseDate (bytes "-0000-01-01") = (⟨0, 1, 1⟩, none) := by
  decide

/-- C4, amended: a date returned without error has its year between -9999 and
9999, and every integer of that range, 0 included, is the year of a date
returned without error. -/
theorem parseDate_year_range :
    (∀ s : GoString, (parseDate s).2 = none →
      -9999 ≤ (parseDate s).1.Year ∧ (parseDate s).1.Year ≤ 9999) ∧
    (∀ y : Int, -9999 ≤ y → y ≤ 9999 →
      ∃ s : GoString, (parseDate s).2 = none ∧ (parseDate s).1.Year = y) := by
  constructor
  · intro s
    rw [parseDate_eq]
    by_cases hv : isValidDate (removeSign s) = true
    · intro _
      have hf : hasDateForm (removeSign s) = true := by
        simp only [isValidDate, Bool.and_eq_true] at hv; exact hv.1.1.1.1
      have hlen := hasDateForm_length _ hf
      generalize removeSign s = t at hv hf hlen
      rcases t with _ | ⟨y1, _ | ⟨y2, _ | ⟨y3, _ | ⟨y4, _ | ⟨h1, _ | ⟨m1, _ | ⟨m2, _ | ⟨h2, _ |
        ⟨d1, _ | ⟨d2, _ | ⟨x, r⟩⟩⟩⟩⟩⟩⟩⟩⟩⟩⟩ <;> simp at hlen
      simp only [hasDateForm, isDecimalDigit, Bool.and_eq_true, decide_eq_true_eq] at hf
      simp only [hv, if_true, yearOf, digitValue, List.getD_cons_zero, List.getD_cons_succ]
      by_cases hs : hasSign s = true
      · simp only [hs, if_true]; omega
      · simp only [hs, Bool.false_eq_true, if_false]; omega
    · intro h
      simp [hv] at h
  · intro y hlo hhi
    by_cases hy : 0 ≤ y
    · obtain ⟨hv, hyr, _, _⟩ := isValidDate_newYearText y.toNat (by omega)
      refine ⟨newYearText false y.toNat, ?_⟩
      have hns : hasSign (newYearText false y.toNat) = false := by
        simp only [newYearText, hasSign]
        simp
        omega
      rw [parseDate_eq]
      simp only [removeSign, hns, Bool.false_eq_true, if_false, hv, if_true, hyr, mul_one,
        true_and]
      omega
    · obtain ⟨hv, hyr, _, _⟩ := isValidDate_newYearText (-y).toNat (by omega)
      refine ⟨newYearText true (-y).toNat, ?_⟩
      have e : newYearText true (-y).toNat = 45 :: newYearText false (-y).toNat := by
        simp [newYearText]
      have hns : hasSign (45 :: newYearText false (-y).toNat) = true := by simp [hasSign]
      have hrm : removeSign (45 :: newYearText false (-y).toNat) =
          newYearText false (-y).toNat := by simp [removeSign, hns]
      rw [e, parseDate_eq]
      simp only [hrm, hns, hv, if_true, hyr, true_and]
      omega

/-- The year 0 and the text `2024-01-01` under the two parts of the amended
C4. -/
theorem parseDate_year_range_witness :
    (-9999 ≤ (parseDate (bytes "2024-01-01")).1.Year ∧
      (parseDate (bytes "2024-01-01")).1.Year ≤ 9999) ∧
    (∃ s : GoString, (parseDate s).2 = none ∧ (parseDate s).1.Year = 0) :=
  ⟨parseDate_year_range.1 (bytes "2024-01-01") (by decide),
   parseDate_year_range.2 0 (by decide) (by decide)⟩

/-- C5: `parseDate` returns a non-nil error for every string whose text after
removing one optional leading `-` is not exactly four decimal digits, `-`, two
decimal digits, `-`, two decimal digits, as for the seven texts listed. -/
theorem parseDate_rejects_other_forms :
    (∀ s : GoString, hasDateForm (removeSign s) = false → (parseDate s).2 ≠ none) ∧
    (parseDate (bytes "")).2 ≠ none ∧
    (parseDate (bytes "-")).2 ≠ none ∧
    (parseDate (bytes "2024-1-5")).2 ≠ none ∧
    (parseDate (bytes "--2024-01-05")).2 ≠ none ∧
    (parseDate (bytes "+2024-01-05")).2 ≠ none ∧
    (parseDate (bytes "2024-01-05 ")).2 ≠ none ∧
    (parseDate (bytes "02024-01-05")).2 ≠ none := by
  refine ⟨?_, by decide, by decide, by decide, by decide, by decide, by decide, by decide⟩
  intro s hf
  have hv : isValidDate (removeSign s) = false := by
    simp [isValidDate, hf]
  rw [parseDate_eq, hv]
  simp

/-- The text `2024-1-5`, which has not the date form, under the general part
of C5. -/
theorem parseDate_rejects_other_forms_witness :
    hasDateForm (removeSign (bytes "2024-1-5")) = false ∧
    (parseDate (bytes "2024-1-5")).2 ≠ none :=
  ⟨by decide, parseDate_rejects_other_forms.1 (bytes "2024-1-5") (by decide)⟩

/-! ## Lemmas on member and unique -/

theorem member_iff (e : GoString) (s : List GoString) : member e s = true ↔ e ∈ s := by
  induction s with
  | nil => simp [member]
  | cons v r ih =>
    by_cases h : v = e
    · simp [member, h]
    · have h2 : ¬ e = v := fun h3 => h h3.symm
      simp [member, h, h2, ih]

theorem member_eq_decide (e : GoString) (s : List GoString) : member e s = decide (e ∈ s) := by
  by_cases h : e ∈ s
  · simp [h, (member_iff e s).2 h]
  · have : member e s ≠ true := fun h2 => h ((member_iff e s).1 h2)
    simp [h, this]

theorem lookup_filter_ne {V : Type} (m : GoMap V) (k x : GoString) (h : x ≠ k) :
    List.lookup x (m.filter (fun kv => kv.1 ≠ k)) = List.lookup x m := by
  induction m with
  | nil => rfl
  | cons kv r ih =>
    obtain ⟨a, b⟩ := kv
    by_cases ha : a = k
    · have hxa : (x == a) = false := by simp [ha, h]
      rw [List.filter_cons_of_neg (by simp [ha]), List.lookup_cons, hxa]
      exact ih
    · rw [List.filter_cons_of_pos (by simp [ha]), List.lookup_cons, List.lookup_cons, ih]

theorem get?_set {V : Type} (m : GoMap V) (k x : GoString) (v : V) :
    (m.set k v).get? x = if x = k then some v else m.get? x := by
  by_cases h : x = k
  · simp [GoMap.set, GoMap.get?, List.lookup, h]
  · have hxk : (x == k) = false := by simp [h]
    simp only [GoMap.set, GoMap.get?, List.lookup, hxk, if_neg h]
    exact lookup_filter_ne m k x h

theorem uniqueLoop_snoc (s : List GoString) (x : GoString) :
    ∀ (hm : GoMap Bool) (us : List GoString),
      uniqueLoop (s ++ [x]) hm us =
        if (hm.get? x).isSome ∨ x ∈ s then uniqueLoop s hm us
        else uniqueLoop s hm us ++ [x] := by
  induction s with
  | nil =>
    intro hm us
    simp only [List.nil_append, uniqueLoop, List.not_mem_nil, or_false]
    cases hx : hm.get? x <;> simp
  | cons v r ih =>
    intro hm us
    simp only [List.cons_append, uniqueLoop]
    cases hv : hm.get? v with
    | none =>
      simp only [List.mem_cons, List.append_eq]
      rw [ih, get?_set]
      by_cases hxv : x = v
      · simp [hxv]
      · simp [hxv]
    | some b =>
      simp only [List.mem_cons, List.append_eq]
      rw [ih]
      by_cases hxv : x = v
      · simp [hxv, hv]
      · simp [hxv]
theorem unique_nil : unique [] = [] := rfl

theorem unique_snoc (s : List GoString) (x : GoString) :
    unique (s ++ [x]) = if x ∈ s then unique s else unique s ++ [x] := by
  simp [unique, uniqueLoop_snoc, GoMap.get?]

theorem mem_unique (s : List GoString) (e : GoString) : e ∈ unique s ↔ e ∈ s := by
  induction s using List.reverseRecOn with
  | nil => simp [unique_nil]
  | append_singleton r x ih =>
    rw [unique_snoc]
    by_cases hx : x ∈ r
    · simp only [hx, if_true, ih, List.mem_append, List.mem_singleton]
      constructor
      · intro h; exact Or.inl h
      · rintro (h | h)
        · exact h
        · rw [h]; exact hx
    · simp [hx, ih]

theorem nodup_unique (s : List GoString) : (unique s).Nodup := by
  induction s using List.reverseRecOn with
  | nil => simp [unique_nil]
  | append_singleton r x ih =>
    rw [unique_snoc]
    by_cases hx : x ∈ r
    · simpa [hx] using ih
    · simp only [hx, if_false]
      rw [List.nodup_append]
      refine ⟨ih, by simp, ?_⟩
      intro a ha hb
      simp only [List.mem_singleton] at hb
      rw [hb, mem_unique] at ha
      exact hx ha

theorem unique_of_nodup (s : List GoString) (h : s.Nodup) : unique s = s := by
  induction s using List.reverseRecOn with
  | nil => rfl
  | append_singleton r x ih =>
    rw [List.nodup_append] at h
    have hx : x ∉ r := fun hm => h.2.2 hm (by simp)
    rw [unique_snoc, if_neg hx, ih h.1]

theorem firstOccurrences_snoc (s : List GoString) (x : GoString) :
    firstOccurrences (s ++ [x]) =
      if x ∈ s then firstOccurrences s else firstOccurrences s ++ [x] := by
  have hcongr : (List.range s.length).filterMap
      (fun i => if (s ++ [x]).getD i [] ∈ (s ++ [x]).take i then none
        else some ((s ++ [x]).getD i [])) = firstOccurrences s := by
    unfold firstOccurrences
    apply List.filterMap_congr
    intro i hi
    have hi2 : i < s.length := List.mem_range.1 hi
    have e1 : (s ++ [x]).getD i [] = s.getD i [] := by
      simp [List.getD_eq_getElem?_getD, List.getElem?_append_left hi2]
    have e2 : (s ++ [x]).take i = s.take i := by
      rw [List.take_append_of_le_length (Nat.le_of_lt hi2)]
    rw [e1, e2]
  have hlast1 : (s ++ [x]).getD s.length [] = x := by
    simp [List.getD_eq_getElem?_getD]
  have hlast2 : (s ++ [x]).take s.length = s := by
    simp
  conv_lhs => unfold firstOccurrences
  rw [List.length_append, List.length_singleton, List.range_succ, List.filterMap_append, hcongr]
  simp only [List.filterMap_cons, List.filterMap_nil, hlast1, hlast2]
  by_cases hx : x ∈ s <;> simp [hx]

theorem unique_eq_firstOccurrences (s : List GoString) : unique s = firstOccurrences s := by
  induction s using List.reverseRecOn with
  | nil => rfl
  | append_singleton r x ih => rw [unique_snoc, firstOccurrences_snoc, ih]

theorem filter_unique (p : GoString → Bool) (s : List GoString) :
    (unique s).filter p = unique (s.filter p) := by
  induction s using List.reverseRecOn with
  | nil => rfl
  | append_singleton r x ih =>
    rw [unique_snoc, List.filter_append]
    by_cases hp : p x = true
    · have e : List.filter p [x] = [x] := by simp [hp]
      rw [e, unique_snoc]
      by_cases hx : x ∈ r
      · have hx2 : x ∈ r.filter p := List.mem_filter.2 ⟨hx, hp⟩
        simp [hx, hx2, ih]
      · have hx2 : x ∉ r.filter p := fun h => hx (List.mem_filter.1 h).1
        simp [hx, hx2, ih, List.filter_append, hp]
    · have e : List.filter p [x] = [] := by simp [hp]
      rw [e, List.append_nil]
      by_cases hx : x ∈ r
      · simp [hx, ih]
      · simp [hx, ih, List.filter_append, hp]

theorem get?_isSome_iff_mem_keys {V : Type} (m : GoMap V) (k : GoString) :
    (m.get? k).isSome = true ↔ k ∈ m.keys := by
  induction m with
  | nil => simp [GoMap.get?, GoMap.keys]
  | cons kv r ih =>
    obtain ⟨a, b⟩ := kv
    simp only [GoMap.get?, GoMap.keys, List.map_cons, List.mem_cons] at ih ⊢
    rw [List.lookup_cons]
    by_cases hka : k = a
    · simp [hka]
    · have hka2 : (k == a) = false := by simp [hka]
      simp only [hka2, hka, false_or]
      exact ih

/-! ## Claims on the identifier tables, member and unique -/

/-- C6: `calendars` is the eleven identifiers of the specification, in its
order and without duplicates, and the keys of `calendarNames` are exactly the
entries of `calendars`, so that an identifier has a display name exactly when
it is in `calendars`. -/
theorem calendars_and_calendarNames_agree :
    calendars =
      [bytes "gregorian", bytes "iso", bytes "julian", bytes "islamic", bytes "hebrew",
       bytes "mayanLongCount", bytes "mayanHaab", bytes "mayanTzolkin", bytes "french",
       bytes "oldHinduSolar", bytes "oldHinduLunar"] ∧
    calendars.length = 11 ∧ calendars.Nodup ∧
    calendarNames.keys.Nodup ∧
    (∀ k : GoString, k ∈ calendarNames.keys ↔ k ∈ calendars) ∧
    (∀ k : GoString, (calendarNames.get? k).isSome = true ↔ member k calendars = true) := by
  have hk : calendarNames.keys = calendars := by decide
  refine ⟨rfl, by decide, by decide, by decide, ?_, ?_⟩
  · intro k; rw [hk]
  · intro k; rw [get?_isSome_iff_mem_keys, member_iff, hk]

/-- C9: `unique s` has no string twice, has exactly the strings of `s`, lists
them in the order of their first occurrence in `s`, is unchanged by a second
application, and is `s` itself when `s` has no duplicates. -/
theorem unique_keeps_first_occurrences (s : List GoString) :
    (unique s).Nodup ∧
    (∀ e : GoString, member e (unique s) = member e s) ∧
    unique s = firstOccurrences s ∧
    unique (unique s) = unique s ∧
    (s.Nodup → unique s = s) := by
  refine ⟨nodup_unique s, ?_, unique_eq_firstOccurrences s,
    unique_of_nodup _ (nodup_unique s), unique_of_nodup s⟩
  intro e
  rw [member_eq_decide, member_eq_decide]
  exact decide_eq_decide.2 (mem_unique s e)

/-- A slice with a repeated string and a slice without, under C9. -/
theorem unique_keeps_first_occurrences_witness :
    unique [bytes "iso", bytes "all", bytes "iso", bytes "french", bytes "all"] =
      [bytes "iso", bytes "all", bytes "french"] ∧
    unique [bytes "iso", bytes "all"] = [bytes "iso", bytes "all"] :=
  ⟨(unique_keeps_first_occurrences
      [bytes "iso", bytes "all", bytes "iso", bytes "french", bytes "all"]).2.2.1.trans
      (by decide),
   (unique_keeps_first_occurrences [bytes "iso", bytes "all"]).2.2.2.2 (by decide)⟩

/-! ## Lemmas on documentCalendars and main -/

theorem padString_eq_leftJustify (s : GoString) : fmt.padString 12 s = leftJustify 12 s := by
  unfold fmt.padString leftJustify fmt.writePadding
  by_cases h : (12 : Int) - (utf8.RuneCountInString s : Int) ≤ 0
  · have h2 : 12 - utf8.RuneCountInString s = 0 := by omega
    simp [h, h2]
  · have h2 : ((12 : Int) - (utf8.RuneCountInString s : Int)).toNat =
        12 - utf8.RuneCountInString s := by omega
    simp [h, h2]

theorem index_eq_displayName (names : GoMap GoString) (v : GoString) :
    names.index v = displayName names v := by
  unfold GoMap.index displayName
  cases names.get? v <;> rfl

theorem SprintfLine_eq_calendarLine (names : GoMap GoString) (v : GoString) :
    fmt.SprintfLine v (names.index v) (bytes "calendar") = calendarLine names v ++ [10] := by
  simp [fmt.SprintfLine, calendarLine, padString_eq_leftJustify, index_eq_displayName]

theorem documentCalendarsLoop_eq (names : GoMap GoString) (l : List GoString) :
    ∀ s : GoString, documentCalendarsLoop names l s =
      s ++ (l.map (fun v => calendarLine names v ++ [10])).flatten := by
  induction l with
  | nil => intro s; simp [documentCalendarsLoop]
  | cons v r ih =>
    intro s
    simp [documentCalendarsLoop, ih, SprintfLine_eq_calendarLine]

theorem flatten_lines (f : GoString → GoString) (v : GoString) (l : List GoString) :
    ((v :: l).map (fun w => f w ++ [10])).flatten =
      List.intercalate [10] ((v :: l).map f) ++ [10] := by
  induction l generalizing v with
  | nil => simp [List.intercalate]
  | cons w r ih =>
    have e := ih w
    simp only [List.map_cons, List.flatten_cons, List.intercalate, List.intersperse] at e ⊢
    rw [e]
    simp

theorem sliceExpr_init (x : GoString) (c : Nat) :
    sliceExpr (x ++ [c]) 0 (((x ++ [c]).length : Int) - 1) = some x := by
  have h : (((x ++ [c]).length : Int) - 1) = (x.length : Int) := by simp
  rw [h]
  simp [sliceExpr]

theorem documentCalendars_cons (names : GoMap GoString) (v : GoString) (l : List GoString) :
    documentCalendars names (v :: l) =
      some (List.intercalate [10] ((v :: l).map (calendarLine names))) := by
  unfold documentCalendars
  simp only [documentCalendarsLoop_eq, List.nil_append]
  rw [flatten_lines (calendarLine names) v l]
  exact sliceExpr_init _ _

theorem requiredCalendarsLoop_eq (l : List GoString) :
    ∀ acc : List GoString, requiredCalendarsLoop l acc =
      acc ++ l.filter (fun v => member v calendars) := by
  induction l with
  | nil => intro acc; simp [requiredCalendarsLoop]
  | cons v r ih =>
    intro acc
    by_cases h : member v calendars = true
    · simp [requiredCalendarsLoop, h, ih]
    · simp [requiredCalendarsLoop, h, ih]

theorem main_eq (date_s list today : GoString) :
    main date_s list today =
      if (parseDate (if date_s ≠ [] then date_s else today)).2 = none then
        Outcome.returned (dispatch (inputList list)
          ((inputList list).filter (fun v => member v calendars)))
      else Outcome.exited 1 := by
  have hdoc : documentCalendars calendarNames calendars =
      some (List.intercalate [10] (calendars.map (calendarLine calendarNames))) :=
    documentCalendars_cons _ _ _
  unfold main
  rw [hdoc]
  simp only [requiredCalendarsLoop_eq, List.nil_append]
  cases (parseDate (if date_s ≠ [] then date_s else today)).2 <;> simp

/-! ## Claims on documentCalendars and main -/

/-- C10: for a non-empty list and any names map, `documentCalendars` does not
index out of bounds and returns one line per list entry, in list order, each
the identifier left-justified to width 12, a tab, the display name (empty when
the map has no such key), a space and the word `calendar`, the lines separated
by single newlines with no trailing newline; for the empty list the slice
expression is out of bounds. -/
theorem documentCalendars_lines (names : GoMap GoString) (cals : List GoString)
    (h : cals ≠ []) :
    documentCalendars names cals =
      some (List.intercalate [10] (cals.map (calendarLine names))) ∧
    (∀ v : GoString, calendarLine names v =
      v ++ List.replicate (12 - utf8.RuneCountInString v) 32 ++ [9] ++
        (match names.get? v with
          | some name => name
          | none => []) ++ bytes " calendar") ∧
    documentCalendars names [] = none := by
  refine ⟨?_, ?_, ?_⟩
  · cases cals with
    | nil => exact absurd rfl h
    | cons v l => exact documentCalendars_cons names v l
  · intro v
    have e : bytes " calendar" = [32] ++ bytes "calendar" := by decide
    simp only [calendarLine, leftJustify, displayName, e, List.append_assoc]
  · simp [documentCalendars, documentCalendarsLoop, sliceExpr]

/-- The usage text of the flag `-c`, two calendars of a one-entry map. -/
theorem documentCalendars_lines_witness :
    documentCalendars [(bytes "iso", bytes "ISO")] [bytes "iso", bytes "mayanLongCount"] =
      some (bytes "iso         \tISO calendar\nmayanLongCount\t calendar") :=
  ((documentCalendars_lines [(bytes "iso", bytes "ISO")]
    [bytes "iso", bytes "mayanLongCount"] (by decide)).1).trans (by decide)

/-- C7, as the code has it: with an empty `-c` argument, whose list has no
entry `all` and no entry of `calendars`, `main` dispatches all of
`calendars`. -/
theorem main_empty_list_dispatches_all :
    member (bytes "all") (strings.Split [] 44) = false ∧
    (strings.Split [] 44).filter (fun v => member v calendars) = [] ∧
    main (bytes "2024-01-01") [] [] = Outcome.returned calendars ∧
    calendars.length = 11 := by
  refine ⟨by decide, by decide, ?_, by decide⟩
  rw [main_eq]
  decide

/-- C7, amended: every identifier that `main` passes to `lc.FromAbsolute` is a
member of `calendars`; when the `-c` argument is not empty and its
comma-separated list has no entry `all`, a run with a valid date dispatches
exactly the distinct entries of the list that are members of `calendars`,
each once, in the order of their first occurrence, and none when no entry is
recognized. -/
theorem main_dispatches_members_only (date_s list today : GoString) :
    (∀ ids : List GoString, main date_s list today = Outcome.returned ids →
      ∀ v ∈ ids, member v calendars = true) ∧
    (list ≠ [] → member (bytes "all") (strings.Split list 44) = false →
      (parseDate (if date_s ≠ [] then date_s else today)).2 = none →
      main date_s list today = Outcome.returned
        (firstOccurrences ((strings.Split list 44).filter (fun v => member v calendars))) ∧
      (firstOccurrences
        ((strings.Split list 44).filter (fun v => member v calendars))).Nodup ∧
      (∀ v : GoString, v ∈ firstOccurrences
          ((strings.Split list 44).filter (fun v => member v calendars)) ↔
        v ∈ strings.Split list 44 ∧ member v calendars = true) ∧
      ((∀ v ∈ strings.Split list 44, member v calendars = false) →
        main date_s list today = Outcome.returned [])) := by
  constructor
  · intro ids hids v hv
    rw [main_eq] at hids
    by_cases hd : (parseDate (if date_s ≠ [] then date_s else today)).2 = none
    swap
    · rw [if_neg hd] at hids; cases hids
    rw [if_pos hd] at hids
    simp only [Outcome.returned.injEq] at hids
    rw [← hids] at hv
    unfold dispatch at hv
    split_ifs at hv
    · exact (member_iff v calendars).2 hv
    · exact (List.mem_filter.1 hv).2
  · intro hne hall hdate
    have hlen : list.length > 0 := List.length_pos.2 hne
    have hin : inputList list = unique (strings.Split list 44) := by
      simp [inputList, hlen]
    have hall2 : member (bytes "all") (inputList list) = false := by
      rw [member_eq_decide] at hall
      rw [hin, member_eq_decide]
      simpa [mem_unique] using hall
    have hmain : main date_s list today = Outcome.returned
        (firstOccurrences ((strings.Split list 44).filter (fun v => member v calendars))) := by
      rw [main_eq, if_pos hdate, dispatch, hall2, hin, filter_unique, unique_eq_firstOccurrences]
      simp
    refine ⟨hmain, ?_, ?_, ?_⟩
    · rw [← unique_eq_firstOccurrences]; exact nodup_unique _
    · intro v
      rw [← unique_eq_firstOccurrences, mem_unique, List.mem_filter]
    · intro hnone
      have e : (strings.Split list 44).filter (fun v => member v calendars) = [] := by
        rw [List.filter_eq_nil_iff]
        intro v hv
        simp [hnone v hv]
      rw [hmain, e]
      rfl

/-- A run with the date `2024-01-01` and the list `iso,foo,iso,hebrew`. -/
theorem main_dispatches_members_only_witness :
    main (bytes "2024-01-01") (bytes "iso,foo,iso,hebrew") [] =
      Outcome.returned [bytes "iso", bytes "hebrew"] :=
  (((main_dispatches_members_only (bytes "2024-01-01") (bytes "iso,foo,iso,hebrew") []).2
    (by decide) (by decide) (by decide)).1).trans (by decide)

/-- C8: when the `-c` argument is empty, or its comma-separated list has the
entry `all`, a run with a valid date converts it for every one of the eleven
identifiers of `calendars`, each once, in the order of `calendars`. -/
theorem main_all_dispatches_calendars (date_s list today : GoString)
    (hc : list = [] ∨ member (bytes "all") (strings.Split list 44) = true)
    (hdate : (parseDate (if date_s ≠ [] then date_s else today)).2 = none) :
    main date_s list today = Outcome.returned calendars ∧
    calendars.length = 11 ∧ calendars.Nodup := by
  refine ⟨?_, by decide, by decide⟩
  have hall : member (bytes "all") (inputList list) = true := by
    rcases hc with hc | hc
    · rw [hc]; decide
    · by_cases hne : list = []
      · rw [hne]; decide
      · have hlen : list.length > 0 := List.length_pos.2 hne
        have hin : inputList list = unique (strings.Split list 44) := by
          simp [inputList, hlen]
        rw [hin, member_iff, mem_unique, ← member_iff]
        exact hc
  rw [main_eq, if_pos hdate, dispatch, hall]
  simp

/-- A run with the date `2024-01-01` and the list `iso,all,foo`. -/
theorem main_all_dispatches_calendars_witness :
    main (bytes "2024-01-01") (bytes "iso,all,foo") [] = Outcome.returned calendars ∧
    calendars.length = 11 ∧ calendars.Nodup :=
  main_all_dispatches_calendars (bytes "2024-01-01") (bytes "iso,all,foo") []
    (Or.inr (by decide)) (by decide)

end Calcal
